import Mathlib

/-!
Verification of the banner-masonry layout core (`src/utils/bannerGenerator.ts`).

The layout engine and the unit-conversion/validation pipeline of
`BannerGenerator` are embedded shallowly: JavaScript numbers are modelled by
exact rationals (`ℚ`), the mutable `columnHeights` array by a `List ℚ` threaded
through a fold, and the fallible stages of `generateBanner` by `Except`.
Browser-only concerns (canvas allocation, drawing, blob encoding, progress
callbacks) are outside the embedded fragment.
-/

namespace BannerMasonry

/-- The fields of `ProcessedImage` (src/types) that the layout engine reads:
`originalDimensions.width/height`.  The identifier stands for the remaining
payload (data URLs, file handle), which the layout only carries through. -/
structure ProcessedImage where
  id : ℕ
  originalWidth : ℚ
  originalHeight : ℚ
  deriving DecidableEq, Repr

/-- Structure `MasonryItem` from src/utils/bannerGenerator.ts: a placed image with its
top-left position and placed size. -/
structure MasonryItem where
  image : ProcessedImage
  x : ℚ
  y : ℚ
  width : ℚ
  height : ℚ
  deriving DecidableEq, Repr

/-- The unit field of `PrintConfig` (src/types): px, in, or cm. -/
inductive SizeUnit where
  | px
  | inch
  | cm
  deriving DecidableEq, Repr

/-- Structure `PrintConfig` from src/types. -/
structure PrintConfig where
  width : ℚ
  height : ℚ
  unit : SizeUnit
  dpi : ℚ
  quality : ℚ
  deriving DecidableEq, Repr

/-- JavaScript `Math.min(...xs)` for a nonempty argument list (the empty case is junk;
the engine only calls it with `columns ≥ 1` heights). -/
def listMin : List ℚ → ℚ
  | [] => 0
  | x :: xs => xs.foldl min x

/-- JavaScript `Array.prototype.indexOf`: index of the first occurrence of `a`, or the
length of the list when `a` is absent. -/
def idxOf (a : ℚ) : List ℚ → ℕ
  | [] => 0
  | x :: xs => if x = a then 0 else idxOf a xs + 1

/-- Shortest-column selection of line 28 of bannerGenerator.ts:
`columnHeights.indexOf(Math.min(...columnHeights))`. -/
def shortestColumnIndex (hs : List ℚ) : ℕ := idxOf (listMin hs) hs

/-- The body of the `for (const image of images)` loop of
`calculateMasonryLayout` (lines 26–52): one image is considered against the
current state (column heights, placed items). -/
def masonryStep (bannerHeight columnWidth gap : ℚ)
    (s : List ℚ × List MasonryItem) (image : ProcessedImage) :
    List ℚ × List MasonryItem :=
  let hs := s.1
  let idx := shortestColumnIndex hs
  let aspectRatio := image.originalWidth / image.originalHeight
  let itemWidth := columnWidth
  let itemHeight := itemWidth / aspectRatio
  let x := gap + (idx : ℚ) * (columnWidth + gap)
  let y := hs.getD idx 0
  if y + itemHeight ≤ bannerHeight - gap then
    (hs.set idx (y + itemHeight + gap),
     s.2 ++ [{ image := image, x := x, y := y,
               width := itemWidth, height := itemHeight }])
  else
    s

/-- Function `calculateMasonryLayout` (lines 15–55 of bannerGenerator.ts). -/
def calculateMasonryLayout (images : List ProcessedImage)
    (bannerWidth bannerHeight : ℚ) (columns : ℕ) (gap : ℚ) :
    List MasonryItem :=
  let columnWidth := (bannerWidth - gap * ((columns : ℚ) + 1)) / (columns : ℚ)
  (images.foldl (masonryStep bannerHeight columnWidth gap)
    (List.replicate columns gap, [])).2

/-- JavaScript `Math.round`: round half toward positive infinity. -/
def jsRound (q : ℚ) : ℤ := ⌊q + 1 / 2⌋

/-- The unit-conversion step of `generateBanner` (lines 84–96): physical size
to pixel size, rounded once at the end. -/
def toPixels (cfg : PrintConfig) : ℤ × ℤ :=
  match cfg.unit with
  | .px => (jsRound cfg.width, jsRound cfg.height)
  | .inch => (jsRound (cfg.width * cfg.dpi), jsRound (cfg.height * cfg.dpi))
  | .cm => (jsRound (cfg.width / 2.54 * cfg.dpi),
            jsRound (cfg.height / 2.54 * cfg.dpi))

/-- The faults `generateBanner` can raise before compositing starts:
the no-images error (line 78), the dimensions-too-large error (line 101),
and the empty-layout error (line 111). -/
inductive GenError where
  | noImages
  | dimensionsTooLarge
  | emptyLayout
  deriving DecidableEq, Repr

/-- Constant `maxDimension = 16000` of line 99. -/
def maxDimension : ℤ := 16000

/-- Column-count policy of line 107:
`Math.max(1, Math.min(5, Math.floor(bannerWidth / 400)))`. -/
def computeColumns (bannerWidth : ℤ) : ℕ :=
  (max 1 (min 5 ⌊(bannerWidth : ℚ) / 400⌋)).toNat

/-- The pre-compositing pipeline of `generateBanner` (lines 77–112): empty
check, unit conversion, size-limit check, column-count policy, layout, and the
empty-layout check.  Canvas allocation and drawing, which follow, are browser
side effects outside the embedding. -/
def generateBannerCheck (images : List ProcessedImage) (cfg : PrintConfig) :
    Except GenError (List MasonryItem) :=
  if images.length = 0 then
    .error .noImages
  else
    let p := toPixels cfg
    if maxDimension < p.1 ∨ maxDimension < p.2 then
      .error .dimensionsTooLarge
    else
      let columns := computeColumns p.1
      let layout :=
        calculateMasonryLayout images (p.1 : ℚ) (p.2 : ℚ) columns 10
      if layout.length = 0 then
        .error .emptyLayout
      else
        .ok layout

/-! ### Spec-side model of the layout algorithm

For the refinement claim, a second definition of the layout transcribes the
algorithm text of spec §4.2 (column-width formula, heights initialised to the
gap, first-minimum column found by a left-to-right scan, rejection when
`candidate_y + placed_height > canvasHeight − gap`).  It is compared with the
source embedding `calculateMasonryLayout` above. -/

/-- Spec §4.2.3a, the first column achieving the minimum, found by
left-to-right scan: the head is chosen when it is no larger than every later
height, otherwise the scan continues in the tail. -/
def specSelectColumn : List ℚ → ℕ
  | [] => 0
  | [_] => 0
  | x :: y :: rest =>
      if x ≤ listMin (y :: rest) then 0 else specSelectColumn (y :: rest) + 1

/-- Spec §4.2.3: one image in input order, against the current column
heights and recorded placements. -/
def specLayoutStep (canvasHeight columnWidth gap : ℚ)
    (s : List ℚ × List MasonryItem) (image : ProcessedImage) :
    List ℚ × List MasonryItem :=
  let heights := s.1
  let columnIndex := specSelectColumn heights
  let placedWidth := columnWidth
  let placedHeight :=
    columnWidth / (image.originalWidth / image.originalHeight)
  let candidateY := heights.getD columnIndex 0
  let candidateX := gap + (columnIndex : ℚ) * (columnWidth + gap)
  if canvasHeight - gap < candidateY + placedHeight then
    s
  else
    (heights.set columnIndex (candidateY + placedHeight + gap),
     s.2 ++ [{ image := image, x := candidateX, y := candidateY,
               width := placedWidth, height := placedHeight }])

/-- Spec §4.2 algorithm, steps 1–3 (the recorded placements of step 4; the
additional rejected-image count of the spec is examined separately). -/
def layoutSpecModel (images : List ProcessedImage)
    (canvasWidth canvasHeight : ℚ) (columns : ℕ) (gap : ℚ) :
    List MasonryItem :=
  let columnWidth := (canvasWidth - gap * ((columns : ℚ) + 1)) / (columns : ℚ)
  (images.foldl (specLayoutStep canvasHeight columnWidth gap)
    (List.replicate columns gap, [])).2

/-! ### Instrumented layout: counting the rejected images -/

/-- The loop body of `calculateMasonryLayout` instrumented with a counter that
increments exactly when the height check of line 40 fails. -/
def masonryStepCounted (bannerHeight columnWidth gap : ℚ)
    (s : (List ℚ × List MasonryItem) × ℕ) (image : ProcessedImage) :
    (List ℚ × List MasonryItem) × ℕ :=
  let hs := s.1.1
  let idx := shortestColumnIndex hs
  let itemHeight := columnWidth / (image.originalWidth / image.originalHeight)
  let y := hs.getD idx 0
  if y + itemHeight ≤ bannerHeight - gap then
    (masonryStep bannerHeight columnWidth gap s.1 image, s.2)
  else
    (s.1, s.2 + 1)

/-- The number of input images whose required height at their selected column
offset exceeds `canvasHeight − gap`, counted along the very run of
`calculateMasonryLayout`. -/
def rejectedCount (images : List ProcessedImage)
    (bannerWidth bannerHeight : ℚ) (columns : ℕ) (gap : ℚ) : ℕ :=
  let columnWidth := (bannerWidth - gap * ((columns : ℚ) + 1)) / (columns : ℚ)
  (images.foldl (masonryStepCounted bannerHeight columnWidth gap)
    ((List.replicate columns gap, []), 0)).2

/-! ### Geometric predicates on placed items -/

/-- The bounding box `(x, y, x+width, y+height)` of an item lies within
`[0, canvasWidth] × [0, canvasHeight]`: both corners are inside the canvas. -/
def itemInBounds (canvasWidth canvasHeight : ℚ) (it : MasonryItem) : Prop :=
  0 ≤ it.x ∧ it.x ≤ canvasWidth ∧
  0 ≤ it.x + it.width ∧ it.x + it.width ≤ canvasWidth ∧
  0 ≤ it.y ∧ it.y ≤ canvasHeight ∧
  0 ≤ it.y + it.height ∧ it.y + it.height ≤ canvasHeight

instance (w h : ℚ) (it : MasonryItem) : Decidable (itemInBounds w h it) := by
  unfold itemInBounds; infer_instance

/-- The closed vertical ranges `[y, y+height]` of two items are disjoint. -/
def yRangesDisjoint (a b : MasonryItem) : Prop :=
  a.y + a.height < b.y ∨ b.y + b.height < a.y

instance (a b : MasonryItem) : Decidable (yRangesDisjoint a b) := by
  unfold yRangesDisjoint; infer_instance

/-- The vertical ranges of two items overlap at most at a boundary point:
one item ends (at or) before the other begins. -/
def noStrictOverlap (a b : MasonryItem) : Prop :=
  a.y + a.height ≤ b.y ∨ b.y + b.height ≤ a.y

instance (a b : MasonryItem) : Decidable (noStrictOverlap a b) := by
  unfold noStrictOverlap; infer_instance

/-- Any two items of the list placed at the same x-offset have vertical
ranges that overlap at most at a boundary point. -/
def columnsOverlapFree (l : List MasonryItem) : Prop :=
  l.Pairwise (fun a b => a.x = b.x → noStrictOverlap a b)

/-! ### Supporting lemmas -/

theorem foldlMin_le_init (xs : List ℚ) (a : ℚ) : xs.foldl min a ≤ a := by
  induction xs generalizing a with
  | nil => simp
  | cons y ys ih =>
      calc (y :: ys).foldl min a = ys.foldl min (min a y) := by simp
        _ ≤ min a y := ih (min a y)
        _ ≤ a := min_le_left a y

theorem foldlMin_le_mem (xs : List ℚ) (a : ℚ) :
    ∀ x ∈ xs, xs.foldl min a ≤ x := by
  induction xs generalizing a with
  | nil => simp
  | cons y ys ih =>
      intro x hx
      rcases List.mem_cons.mp hx with rfl | hx
      · calc (x :: ys).foldl min a = ys.foldl min (min a x) := by simp
          _ ≤ min a x := foldlMin_le_init ys (min a x)
          _ ≤ x := min_le_right a x
      · calc (y :: ys).foldl min a = ys.foldl min (min a y) := by simp
          _ ≤ x := ih (min a y) x hx

theorem foldlMin_eq_or_mem (xs : List ℚ) (a : ℚ) :
    xs.foldl min a = a ∨ xs.foldl min a ∈ xs := by
  induction xs generalizing a with
  | nil => left; rfl
  | cons y ys ih =>
      have hstep : (y :: ys).foldl min a = ys.foldl min (min a y) := by simp
      rcases ih (min a y) with heq | hmem
      · rcases min_choice a y with hay | hay
        · left; rw [hstep, heq, hay]
        · right; rw [hstep, heq, hay]; exact List.mem_cons_self y ys
      · right; rw [hstep]; exact List.mem_cons_of_mem y hmem

theorem listMin_le (l : List ℚ) : ∀ x ∈ l, listMin l ≤ x := by
  cases l with
  | nil => simp
  | cons x xs =>
      intro z hz
      rcases List.mem_cons.mp hz with rfl | hz
      · exact foldlMin_le_init xs z
      · exact foldlMin_le_mem xs x z hz

theorem listMin_mem {l : List ℚ} (h : l ≠ []) : listMin l ∈ l := by
  cases l with
  | nil => exact absurd rfl h
  | cons x xs =>
      show xs.foldl min x ∈ x :: xs
      rcases foldlMin_eq_or_mem xs x with heq | hmem
      · rw [heq]; exact List.mem_cons_self x xs
      · exact List.mem_cons_of_mem x hmem

theorem foldl_min_min (xs : List ℚ) (a b : ℚ) :
    xs.foldl min (min a b) = min a (xs.foldl min b) := by
  induction xs generalizing b with
  | nil => rfl
  | cons y ys ih =>
      have h1 : (y :: ys).foldl min (min a b) = ys.foldl min (min (min a b) y) := by
        simp
      have h2 : min (min a b) y = min a (min b y) := min_assoc a b y
      rw [h1, h2, ih (min b y)]
      simp

theorem listMin_cons (x : ℚ) {xs : List ℚ} (h : xs ≠ []) :
    listMin (x :: xs) = min x (listMin xs) := by
  cases xs with
  | nil => exact absurd rfl h
  | cons y ys =>
      show (y :: ys).foldl min x = min x (ys.foldl min y)
      have h1 : (y :: ys).foldl min x = ys.foldl min (min x y) := by simp
      rw [h1, foldl_min_min]

theorem idxOf_lt_length {a : ℚ} {l : List ℚ} (h : a ∈ l) :
    idxOf a l < l.length := by
  induction l with
  | nil => cases h
  | cons x xs ih =>
      by_cases hx : x = a
      · simp [idxOf, hx]
      · have ha : a ∈ xs := by
          rcases List.mem_cons.mp h with rfl | hmem
          · exact absurd rfl hx
          · exact hmem
        simpa [idxOf, hx] using ih ha

theorem getD_idxOf {a : ℚ} {l : List ℚ} (h : a ∈ l) :
    l.getD (idxOf a l) 0 = a := by
  induction l with
  | nil => cases h
  | cons x xs ih =>
      by_cases hx : x = a
      · simp [idxOf, hx]
      · have ha : a ∈ xs := by
          rcases List.mem_cons.mp h with rfl | hmem
          · exact absurd rfl hx
          · exact hmem
        simpa [idxOf, hx] using ih ha

theorem shortestColumnIndex_lt_length {hs : List ℚ} (h : hs ≠ []) :
    shortestColumnIndex hs < hs.length :=
  idxOf_lt_length (listMin_mem h)

theorem getD_shortestColumnIndex {hs : List ℚ} (h : hs ≠ []) :
    hs.getD (shortestColumnIndex hs) 0 = listMin hs :=
  getD_idxOf (listMin_mem h)

theorem specSelectColumn_eq {l : List ℚ} (h : l ≠ []) :
    specSelectColumn l = shortestColumnIndex l := by
  induction l with
  | nil => exact absurd rfl h
  | cons x xs ih =>
      cases xs with
      | nil =>
          show 0 = idxOf (listMin [x]) [x]
          have : listMin [x] = x := rfl
          simp [this, idxOf]
      | cons y ys =>
          have hyx : (y :: ys) ≠ [] := by simp
          have hrec := ih hyx
          by_cases hx : x ≤ listMin (y :: ys)
          · have hmin : listMin (x :: y :: ys) = x := by
              rw [listMin_cons x hyx, min_eq_left hx]
            show (if x ≤ listMin (y :: ys) then 0
                  else specSelectColumn (y :: ys) + 1) =
                 idxOf (listMin (x :: y :: ys)) (x :: y :: ys)
            rw [if_pos hx, hmin]
            simp [idxOf]
          · have hlt : listMin (y :: ys) < x := lt_of_not_le hx
            have hmin : listMin (x :: y :: ys) = listMin (y :: ys) := by
              rw [listMin_cons x hyx, min_eq_right (le_of_lt hlt)]
            have hne : x ≠ listMin (y :: ys) := ne_of_gt hlt
            show (if x ≤ listMin (y :: ys) then 0
                  else specSelectColumn (y :: ys) + 1) =
                 idxOf (listMin (x :: y :: ys)) (x :: y :: ys)
            rw [if_neg hx, hmin]
            show specSelectColumn (y :: ys) + 1 =
                 if x = listMin (y :: ys) then 0
                 else idxOf (listMin (y :: ys)) (y :: ys) + 1
            rw [if_neg hne, hrec]
            rfl

theorem masonryStep_fst_length (bannerHeight columnWidth gap : ℚ)
    (s : List ℚ × List MasonryItem) (image : ProcessedImage) :
    ((masonryStep bannerHeight columnWidth gap s image).1).length = s.1.length := by
  simp only [masonryStep]
  split
  · simp [List.length_set]
  · rfl

theorem specLayoutStep_eq (bannerHeight columnWidth gap : ℚ)
    (s : List ℚ × List MasonryItem) (h : s.1 ≠ []) (image : ProcessedImage) :
    specLayoutStep bannerHeight columnWidth gap s image =
      masonryStep bannerHeight columnWidth gap s image := by
  simp only [specLayoutStep, masonryStep, specSelectColumn_eq h]
  rcases le_or_lt
      (s.1.getD (shortestColumnIndex s.1) 0 +
        columnWidth / (image.originalWidth / image.originalHeight))
      (bannerHeight - gap) with hle | hlt
  · rw [if_neg (not_lt_of_le hle), if_pos hle]
  · rw [if_pos hlt, if_neg (not_le_of_lt hlt)]

theorem foldl_spec_eq (bannerHeight columnWidth gap : ℚ) :
    ∀ (images : List ProcessedImage) (s : List ℚ × List MasonryItem),
      s.1 ≠ [] →
      images.foldl (specLayoutStep bannerHeight columnWidth gap) s =
        images.foldl (masonryStep bannerHeight columnWidth gap) s := by
  intro images
  induction images with
  | nil => intro s _; rfl
  | cons img rest ih =>
      intro s hs
      simp only [List.foldl_cons]
      rw [specLayoutStep_eq bannerHeight columnWidth gap s hs img]
      apply ih
      have hlen := masonryStep_fst_length bannerHeight columnWidth gap s img
      have hpos : 0 < s.1.length := List.length_pos.mpr hs
      exact List.ne_nil_of_length_pos (hlen ▸ hpos)

/-- **C1.** For `columns ≥ 1` the source layout (input order, column width
`(canvasWidth − gap·(columns+1))/columns`, heights initialised to `gap`,
first-minimum column selection, placement at
`x = gap + columnIndex·(columnWidth+gap)`, `y` = the filled height of the selected column)
coincides with the spec §4.2 algorithm transcribed verbatim in
`layoutSpecModel`. -/
theorem c1_layout_matches_spec (images : List ProcessedImage)
    (bannerWidth bannerHeight : ℚ) (columns : ℕ) (gap : ℚ)
    (hcols : 1 ≤ columns) :
    calculateMasonryLayout images bannerWidth bannerHeight columns gap =
      layoutSpecModel images bannerWidth bannerHeight columns gap := by
  unfold calculateMasonryLayout layoutSpecModel
  dsimp only
  have hne : (List.replicate columns gap) ≠ [] := by
    apply List.ne_nil_of_length_pos
    simpa [List.length_replicate] using hcols
  rw [foldl_spec_eq _ _ _ images (List.replicate columns gap, []) hne]

/-- C1 instantiated on the spec §8 scenario: five 100×100 images on a
1000×1000 canvas with 3 columns and gap 10. -/
theorem c1_layout_matches_spec_witness :
    (1 : ℕ) ≤ 3 ∧
    calculateMasonryLayout
        [⟨0, 100, 100⟩, ⟨1, 100, 100⟩, ⟨2, 100, 100⟩, ⟨3, 100, 100⟩,
         ⟨4, 100, 100⟩] 1000 1000 3 10 =
      layoutSpecModel
        [⟨0, 100, 100⟩, ⟨1, 100, 100⟩, ⟨2, 100, 100⟩, ⟨3, 100, 100⟩,
         ⟨4, 100, 100⟩] 1000 1000 3 10 :=
  ⟨by decide,
   c1_layout_matches_spec
     [⟨0, 100, 100⟩, ⟨1, 100, 100⟩, ⟨2, 100, 100⟩, ⟨3, 100, 100⟩,
      ⟨4, 100, 100⟩] 1000 1000 3 10 (by decide)⟩

/-- **C2.** Per image: when the candidate height overflows
(`candidate_y + placed_height > canvasHeight − gap`, line 40 of
bannerGenerator.ts) the step leaves the state untouched — no item recorded, the
filled height of the selected column unchanged, the image not retried anywhere;
otherwise the item is appended and the filled height of the selected column becomes
`candidate_y + placed_height + gap`. -/
theorem c2_step_rejects_or_places (bannerHeight columnWidth gap : ℚ)
    (hs : List ℚ) (items : List MasonryItem) (image : ProcessedImage) :
    (bannerHeight - gap <
        hs.getD (shortestColumnIndex hs) 0 +
          columnWidth / (image.originalWidth / image.originalHeight) →
      masonryStep bannerHeight columnWidth gap (hs, items) image =
        (hs, items)) ∧
    (hs.getD (shortestColumnIndex hs) 0 +
        columnWidth / (image.originalWidth / image.originalHeight) ≤
          bannerHeight - gap →
      masonryStep bannerHeight columnWidth gap (hs, items) image =
        (hs.set (shortestColumnIndex hs)
          (hs.getD (shortestColumnIndex hs) 0 +
            columnWidth / (image.originalWidth / image.originalHeight) + gap),
         items ++
           [{ image := image,
              x := gap + (shortestColumnIndex hs : ℚ) * (columnWidth + gap),
              y := hs.getD (shortestColumnIndex hs) 0,
              width := columnWidth,
              height :=
                columnWidth / (image.originalWidth / image.originalHeight) }])) := by
  constructor
  · intro hgt
    simp only [masonryStep]
    rw [if_neg (not_le_of_lt hgt)]
  · intro hle
    simp only [masonryStep]
    rw [if_pos hle]

/-- C2 instantiated: a 100×100 image fits column 0 of a fresh 3-column
1000-high state (placed, height advanced to 340), while a 100×10000 image
(placed height 32000) is rejected on a fresh 1-column state. -/
theorem c2_step_rejects_or_places_witness :
    masonryStep 1000 320 10 ([10, 10, 10], []) ⟨0, 100, 100⟩ =
      ([340, 10, 10],
       [{ image := ⟨0, 100, 100⟩, x := 10, y := 10, width := 320,
          height := 320 }]) ∧
    masonryStep 1000 320 10 ([10], []) ⟨9, 100, 10000⟩ = ([10], []) := by
  constructor
  · have h :=
      (c2_step_rejects_or_places 1000 320 10 [10, 10, 10] [] ⟨0, 100, 100⟩).2
        (by norm_num [shortestColumnIndex, idxOf, listMin])
    rw [h]
    norm_num [shortestColumnIndex, idxOf, listMin]
  · have h :=
      (c2_step_rejects_or_places 1000 320 10 [10] [] ⟨9, 100, 10000⟩).1
        (by norm_num [shortestColumnIndex, idxOf, listMin])
    rw [h]

/-- **C6.** Unit conversion: pixels are rounded as-is (dpi ignored), inches
scale by dpi, centimeters by dpi/2.54, with a single rounding applied to the
final product (`round` is `⌊· + 1/2⌋`, the `Math.round` semantics). -/
theorem c6_to_pixels_formulas (w h d q : ℚ) :
    toPixels ⟨w, h, .px, d, q⟩ = (round w, round h) ∧
    toPixels ⟨w, h, .inch, d, q⟩ = (round (w * d), round (h * d)) ∧
    toPixels ⟨w, h, .cm, d, q⟩ =
      (round (w / 2.54 * d), round (h / 2.54 * d)) := by
  refine ⟨?_, ?_, ?_⟩ <;> simp [toPixels, jsRound, round_eq]

/-- **C10.** With an empty image list, `generateBanner` fails at once with the
no-images error of line 78, for every configuration — including
ones that would later fail conversion or the size check. -/
theorem c10_empty_input_fails_first (cfg : PrintConfig) :
    generateBannerCheck [] cfg = .error .noImages := rfl

/-- **C5.** With a nonempty image list, a converted dimension above 16000
yields exactly the dimensions-too-large error (uniformly in the images, hence
before any layout influence), and with both dimensions at or below 16000 that
error is never raised. -/
theorem c5_canvas_size_limit (images : List ProcessedImage)
    (cfg : PrintConfig) :
    (images ≠ [] →
      (maxDimension < (toPixels cfg).1 ∨ maxDimension < (toPixels cfg).2) →
      generateBannerCheck images cfg = .error .dimensionsTooLarge) ∧
    ((toPixels cfg).1 ≤ maxDimension → (toPixels cfg).2 ≤ maxDimension →
      generateBannerCheck images cfg ≠ .error .dimensionsTooLarge) := by
  constructor
  · intro hne hbig
    have hlen : ¬ images.length = 0 := by
      simpa [List.length_eq_zero] using hne
    simp only [generateBannerCheck]
    rw [if_neg hlen, if_pos hbig]
  · intro hw hh
    by_cases hlen : images.length = 0
    · simp only [generateBannerCheck]
      rw [if_pos hlen]
      intro hcontra
      exact GenError.noConfusion (Except.error.inj hcontra)
    · have hnot : ¬ (maxDimension < (toPixels cfg).1 ∨
          maxDimension < (toPixels cfg).2) := by
        push_neg
        exact ⟨hw, hh⟩
      simp only [generateBannerCheck]
      rw [if_neg hlen, if_neg hnot]
      by_cases hempty :
          (calculateMasonryLayout images ((toPixels cfg).1 : ℚ)
            ((toPixels cfg).2 : ℚ) (computeColumns (toPixels cfg).1)
            10).length = 0
      · rw [if_pos hempty]
        intro hcontra
        exact GenError.noConfusion (Except.error.inj hcontra)
      · rw [if_neg hempty]
        intro hcontra
        exact Except.noConfusion hcontra

/-- C5 instantiated on the spec §8 scenario: a requested 20000×20000 pixel
canvas is refused as too large. -/
theorem c5_canvas_size_limit_witness :
    generateBannerCheck [⟨0, 100, 100⟩] ⟨20000, 20000, .px, 300, 9 / 10⟩ =
      .error .dimensionsTooLarge :=
  (c5_canvas_size_limit [⟨0, 100, 100⟩]
    ⟨20000, 20000, .px, 300, 9 / 10⟩).1 (by decide)
    (by norm_num [toPixels, jsRound, maxDimension])

/-- **C4 counterexample.** A requested width of −5 pixels (width ≤ 0) does not
fail: the pipeline converts it, passes the size check, and even returns a
successful (degenerate) layout.  No invalid-dimension fault exists in the
error repertoire of the code. -/
theorem c4_counterexample :
    generateBannerCheck [⟨0, 100, 100⟩] ⟨-5, 10, .px, 300, 9 / 10⟩ =
      .ok [{ image := ⟨0, 100, 100⟩, x := 10, y := 10, width := -25,
             height := -25 }] := by
  norm_num [generateBannerCheck, toPixels, jsRound, computeColumns,
    maxDimension, calculateMasonryLayout, masonryStep, shortestColumnIndex,
    idxOf, listMin]

/-- **C4 amended.** The unit-conversion step performs no dimension validation
and never fails: for any configuration — non-positive width, height or dpi
included — a nonempty request whose converted dimensions pass the 16000 limit
either succeeds or fails with the empty-layout error; no other pre-compositing
failure exists. -/
theorem c4_no_validation_at_conversion (images : List ProcessedImage)
    (cfg : PrintConfig) (hne : images ≠ [])
    (hw : (toPixels cfg).1 ≤ maxDimension)
    (hh : (toPixels cfg).2 ≤ maxDimension) :
    generateBannerCheck images cfg =
      .ok (calculateMasonryLayout images ((toPixels cfg).1 : ℚ)
        ((toPixels cfg).2 : ℚ) (computeColumns (toPixels cfg).1) 10) ∨
    generateBannerCheck images cfg = .error .emptyLayout := by
  have hlen : ¬ images.length = 0 := by
    simpa [List.length_eq_zero] using hne
  have hnot : ¬ (maxDimension < (toPixels cfg).1 ∨
      maxDimension < (toPixels cfg).2) := by
    push_neg
    exact ⟨hw, hh⟩
  simp only [generateBannerCheck]
  rw [if_neg hlen, if_neg hnot]
  by_cases hempty :
      (calculateMasonryLayout images ((toPixels cfg).1 : ℚ)
        ((toPixels cfg).2 : ℚ) (computeColumns (toPixels cfg).1)
        10).length = 0
  · right
    rw [if_pos hempty]
  · left
    rw [if_neg hempty]

/-- C4 amended, instantiated at a width of −5 pixels: the request passes the
conversion stage without any validation failure. -/
theorem c4_no_validation_at_conversion_witness :
    generateBannerCheck [⟨0, 100, 100⟩] ⟨-5, 10, .px, 300, 9 / 10⟩ =
      .ok (calculateMasonryLayout [⟨0, 100, 100⟩]
        ((toPixels ⟨-5, 10, .px, 300, 9 / 10⟩).1 : ℚ)
        ((toPixels ⟨-5, 10, .px, 300, 9 / 10⟩).2 : ℚ)
        (computeColumns (toPixels ⟨-5, 10, .px, 300, 9 / 10⟩).1) 10) ∨
    generateBannerCheck [⟨0, 100, 100⟩] ⟨-5, 10, .px, 300, 9 / 10⟩ =
      .error .emptyLayout :=
  c4_no_validation_at_conversion [⟨0, 100, 100⟩] ⟨-5, 10, .px, 300, 9 / 10⟩
    (by decide) (by norm_num [toPixels, jsRound, maxDimension])
    (by norm_num [toPixels, jsRound, maxDimension])

/-- **C3 counterexample.** The return value of the layout operation does not carry
the rejected count: two inputs with different numbers of rejected images
(0 and 1 — the 100×10000 image is 32000 high at column width 320 and is
rejected) produce identical outputs. -/
theorem c3_counterexample :
    calculateMasonryLayout [⟨0, 100, 100⟩] 1000 1000 3 10 =
      calculateMasonryLayout [⟨0, 100, 100⟩, ⟨9, 100, 10000⟩] 1000 1000 3 10 ∧
    rejectedCount [⟨0, 100, 100⟩] 1000 1000 3 10 ≠
      rejectedCount [⟨0, 100, 100⟩, ⟨9, 100, 10000⟩] 1000 1000 3 10 := by
  constructor
  · norm_num [calculateMasonryLayout, masonryStep, shortestColumnIndex,
      idxOf, listMin, List.replicate]
  · norm_num [rejectedCount, masonryStepCounted, masonryStep,
      shortestColumnIndex, idxOf, listMin, List.replicate]

theorem masonryStepCounted_fst (bannerHeight columnWidth gap : ℚ)
    (s : (List ℚ × List MasonryItem) × ℕ) (image : ProcessedImage) :
    (masonryStepCounted bannerHeight columnWidth gap s image).1 =
      masonryStep bannerHeight columnWidth gap s.1 image := by
  simp only [masonryStepCounted]
  by_cases hcond :
      s.1.1.getD (shortestColumnIndex s.1.1) 0 +
        columnWidth / (image.originalWidth / image.originalHeight) ≤
          bannerHeight - gap
  · rw [if_pos hcond]
  · rw [if_neg hcond]
    simp only [masonryStep]
    rw [if_neg hcond]

theorem masonryStepCounted_count (bannerHeight columnWidth gap : ℚ)
    (s : (List ℚ × List MasonryItem) × ℕ) (image : ProcessedImage) :
    ((masonryStepCounted bannerHeight columnWidth gap s image).1.2).length +
        (masonryStepCounted bannerHeight columnWidth gap s image).2 =
      s.1.2.length + s.2 + 1 := by
  simp only [masonryStepCounted]
  by_cases hcond :
      s.1.1.getD (shortestColumnIndex s.1.1) 0 +
        columnWidth / (image.originalWidth / image.originalHeight) ≤
          bannerHeight - gap
  · rw [if_pos hcond]
    simp only [masonryStep]
    rw [if_pos hcond]
    simp only [List.length_append, List.length_singleton]
    omega
  · rw [if_neg hcond]
    dsimp only
    omega

theorem foldl_counted_fst (bannerHeight columnWidth gap : ℚ) :
    ∀ (images : List ProcessedImage)
      (s : (List ℚ × List MasonryItem) × ℕ),
      (images.foldl (masonryStepCounted bannerHeight columnWidth gap) s).1 =
        images.foldl (masonryStep bannerHeight columnWidth gap) s.1 := by
  intro images
  induction images with
  | nil => intro s; rfl
  | cons img rest ih =>
      intro s
      simp only [List.foldl_cons]
      rw [ih, masonryStepCounted_fst]

theorem foldl_counted_count (bannerHeight columnWidth gap : ℚ) :
    ∀ (images : List ProcessedImage)
      (s : (List ℚ × List MasonryItem) × ℕ),
      ((images.foldl (masonryStepCounted bannerHeight columnWidth gap)
          s).1.2).length +
        (images.foldl (masonryStepCounted bannerHeight columnWidth gap)
          s).2 =
      s.1.2.length + s.2 + images.length := by
  intro images
  induction images with
  | nil => intro s; simp
  | cons img rest ih =>
      intro s
      simp only [List.foldl_cons, List.length_cons]
      rw [ih]
      have hstep :=
        masonryStepCounted_count bannerHeight columnWidth gap s img
      omega

/-- **C3 amended.** The layout operation returns only the recorded placements;
the rejected count is not part of its return value.  The number of rejected
images — recoverable as input length minus placements length — equals exactly
the number of input images whose required height at their selected column
offset exceeds `canvasHeight − gap` (counted by `rejectedCount` along the same
run, incrementing precisely when the line-40 height check fails). -/
theorem c3_placed_plus_rejected (images : List ProcessedImage)
    (bannerWidth bannerHeight : ℚ) (columns : ℕ) (gap : ℚ) :
    (calculateMasonryLayout images bannerWidth bannerHeight columns
        gap).length +
      rejectedCount images bannerWidth bannerHeight columns gap =
    images.length := by
  unfold calculateMasonryLayout rejectedCount
  dsimp only
  have hfst := foldl_counted_fst bannerHeight
    ((bannerWidth - gap * ((columns : ℚ) + 1)) / (columns : ℚ)) gap images
    ((List.replicate columns gap, []), 0)
  have hcount := foldl_counted_count bannerHeight
    ((bannerWidth - gap * ((columns : ℚ) + 1)) / (columns : ℚ)) gap images
    ((List.replicate columns gap, []), 0)
  rw [hfst] at hcount
  simpa using hcount

theorem foldl_items_shape (bannerHeight columnWidth gap : ℚ) :
    ∀ (images : List ProcessedImage) (s : List ℚ × List MasonryItem),
      (∀ img ∈ images,
        0 < img.originalWidth ∧ 0 < img.originalHeight) →
      (∀ it ∈ s.2, it.width = columnWidth ∧
        it.height =
          columnWidth / (it.image.originalWidth / it.image.originalHeight) ∧
        0 < it.image.originalWidth ∧ 0 < it.image.originalHeight) →
      ∀ it ∈ (images.foldl (masonryStep bannerHeight columnWidth gap) s).2,
        it.width = columnWidth ∧
        it.height =
          columnWidth / (it.image.originalWidth / it.image.originalHeight) ∧
        0 < it.image.originalWidth ∧ 0 < it.image.originalHeight := by
  intro images
  induction images with
  | nil => intro s _ hinv; exact hinv
  | cons img rest ih =>
      intro s himgs hinv
      simp only [List.foldl_cons]
      apply ih
      · intro i hi
        exact himgs i (List.mem_cons_of_mem _ hi)
      · intro it hit
        simp only [masonryStep] at hit
        by_cases hcond :
            s.1.getD (shortestColumnIndex s.1) 0 +
              columnWidth / (img.originalWidth / img.originalHeight) ≤
                bannerHeight - gap
        · rw [if_pos hcond] at hit
          rcases List.mem_append.mp hit with hold | hnew
          · exact hinv it hold
          · rcases List.mem_singleton.mp hnew with rfl
            exact ⟨rfl, rfl, (himgs img (List.mem_cons_self img rest)).1,
              (himgs img (List.mem_cons_self img rest)).2⟩
        · rw [if_neg hcond] at hit
          exact hinv it hit

/-- **C9.** Every placed item preserves the aspect ratio of its source image
exactly: with positive original dimensions and a nonzero column width,
`placedWidth / placedHeight = originalWidth / originalHeight` in exact
rational arithmetic. -/
theorem c9_aspect_ratio_preserved (images : List ProcessedImage)
    (bannerWidth bannerHeight : ℚ) (columns : ℕ) (gap : ℚ)
    (himg : ∀ img ∈ images, 0 < img.originalWidth ∧ 0 < img.originalHeight)
    (hcw : (bannerWidth - gap * ((columns : ℚ) + 1)) / (columns : ℚ) ≠ 0) :
    ∀ it ∈ calculateMasonryLayout images bannerWidth bannerHeight columns gap,
      it.width / it.height =
        it.image.originalWidth / it.image.originalHeight := by
  intro it hit
  unfold calculateMasonryLayout at hit
  dsimp only at hit
  obtain ⟨hw, hh, how, hoh⟩ :=
    foldl_items_shape bannerHeight
      ((bannerWidth - gap * ((columns : ℚ) + 1)) / (columns : ℚ)) gap images
      (List.replicate columns gap, []) himg (by simp) it hit
  rw [hw, hh]
  rw [div_div_eq_mul_div, mul_comm, mul_div_assoc, div_self hcw, mul_one]

/-- C9 instantiated: the first placed item of the §8 scenario is 320×320 for a
100×100 source, ratio 1. -/
theorem c9_aspect_ratio_preserved_witness :
    (⟨⟨0, 100, 100⟩, 10, 10, 320, 320⟩ : MasonryItem).width /
        (⟨⟨0, 100, 100⟩, 10, 10, 320, 320⟩ : MasonryItem).height =
      (⟨⟨0, 100, 100⟩, 10, 10, 320, 320⟩ : MasonryItem).image.originalWidth /
        (⟨⟨0, 100, 100⟩, 10, 10, 320,
          320⟩ : MasonryItem).image.originalHeight := by
  apply c9_aspect_ratio_preserved [⟨0, 100, 100⟩] 1000 1000 3 10
    (by norm_num) (by norm_num)
  norm_num [calculateMasonryLayout, masonryStep, shortestColumnIndex, idxOf,
    listMin, List.replicate]

theorem getD_mem {l : List ℚ} {n : ℕ} (h : n < l.length) : l.getD n 0 ∈ l := by
  rw [List.getD_eq_getElem l 0 h]
  exact List.getElem_mem h

/-- **C7 counterexample.** All of the claimed preconditions hold (columns = 1,
gap = 10, canvas 1×100 positive, image 1×1 positive), yet the column width is
(1 − 20)/1 = −19: the single image is nevertheless placed at x = 10 with width −19, and
its bounding box leaves `[0, 1] × [0, 100]`. -/
theorem c7_counterexample :
    calculateMasonryLayout [⟨0, 1, 1⟩] 1 100 1 10 =
      [{ image := ⟨0, 1, 1⟩, x := 10, y := 10, width := -19,
         height := -19 }] ∧
    ¬ itemInBounds 1 100
        { image := ⟨0, 1, 1⟩, x := 10, y := 10, width := -19,
          height := -19 } := by
  constructor
  · norm_num [calculateMasonryLayout, masonryStep, shortestColumnIndex,
      idxOf, listMin, List.replicate]
  · norm_num [itemInBounds]

theorem c7_step (canvasW canvasH g cw : ℚ) (c : ℕ) (hc : 1 ≤ c)
    (hg : 0 ≤ g) (hcw0 : 0 ≤ cw)
    (hsum : (c : ℚ) * cw + (c : ℚ) * g ≤ canvasW)
    (s : List ℚ × List MasonryItem) (image : ProcessedImage)
    (hiw : 0 < image.originalWidth) (hihh : 0 < image.originalHeight)
    (hl : s.1.length = c) (hpos : ∀ v ∈ s.1, 0 ≤ v)
    (hitems : ∀ it ∈ s.2, itemInBounds canvasW canvasH it) :
    (masonryStep canvasH cw g s image).1.length = c ∧
    (∀ v ∈ (masonryStep canvasH cw g s image).1, 0 ≤ v) ∧
    (∀ it ∈ (masonryStep canvasH cw g s image).2,
      itemInBounds canvasW canvasH it) := by
  have hne : s.1 ≠ [] := by
    apply List.ne_nil_of_length_pos
    omega
  have hidx : shortestColumnIndex s.1 < s.1.length :=
    shortestColumnIndex_lt_length hne
  have hy0 : 0 ≤ s.1.getD (shortestColumnIndex s.1) 0 :=
    hpos _ (getD_mem hidx)
  have hasp : 0 < image.originalWidth / image.originalHeight :=
    div_pos hiw hihh
  have hih0 : 0 ≤ cw / (image.originalWidth / image.originalHeight) :=
    div_nonneg hcw0 (le_of_lt hasp)
  by_cases hcond :
      s.1.getD (shortestColumnIndex s.1) 0 +
        cw / (image.originalWidth / image.originalHeight) ≤ canvasH - g
  · rw [(c2_step_rejects_or_places canvasH cw g s.1 s.2 image).2 hcond]
    refine ⟨by simp [List.length_set, hl], ?_, ?_⟩
    · intro v hv
      rcases List.mem_or_eq_of_mem_set hv with hmem | rfl
      · exact hpos v hmem
      · have := hy0
        positivity
    · intro it hit
      rcases List.mem_append.mp hit with hold | hnew
      · exact hitems it hold
      · rcases List.mem_singleton.mp hnew with rfl
        have hidxc : shortestColumnIndex s.1 + 1 ≤ c := by omega
        have hidxq : ((shortestColumnIndex s.1 : ℕ) : ℚ) + 1 ≤ (c : ℚ) := by
          exact_mod_cast hidxc
        have hidxq0 : (0 : ℚ) ≤ ((shortestColumnIndex s.1 : ℕ) : ℚ) :=
          Nat.cast_nonneg _
        have hcwg : (0 : ℚ) ≤ cw + g := by linarith
        have hmul :
            ((shortestColumnIndex s.1 : ℕ) : ℚ) * (cw + g) ≤
              ((c : ℚ) - 1) * (cw + g) :=
          mul_le_mul_of_nonneg_right (by linarith) hcwg
        have hexp : ((c : ℚ) - 1) * (cw + g) =
            (c : ℚ) * cw + (c : ℚ) * g - cw - g := by ring
        have hx0 : 0 ≤ g +
            ((shortestColumnIndex s.1 : ℕ) : ℚ) * (cw + g) := by
          have := mul_nonneg hidxq0 hcwg
          linarith
        refine ⟨by simpa using hx0, ?_, ?_, ?_, by simpa using hy0, ?_, ?_, ?_⟩
        · show g + ((shortestColumnIndex s.1 : ℕ) : ℚ) * (cw + g) ≤ canvasW
          linarith
        · show 0 ≤ g + ((shortestColumnIndex s.1 : ℕ) : ℚ) * (cw + g) + cw
          linarith
        · show g + ((shortestColumnIndex s.1 : ℕ) : ℚ) * (cw + g) + cw ≤
            canvasW
          linarith
        · show s.1.getD (shortestColumnIndex s.1) 0 ≤ canvasH
          linarith
        · show 0 ≤ s.1.getD (shortestColumnIndex s.1) 0 +
            cw / (image.originalWidth / image.originalHeight)
          linarith
        · show s.1.getD (shortestColumnIndex s.1) 0 +
            cw / (image.originalWidth / image.originalHeight) ≤ canvasH
          linarith
  · rw [(c2_step_rejects_or_places canvasH cw g s.1 s.2 image).1
      (lt_of_not_le hcond)]
    exact ⟨hl, hpos, hitems⟩

theorem c7_fold (canvasW canvasH g cw : ℚ) (c : ℕ) (hc : 1 ≤ c)
    (hg : 0 ≤ g) (hcw0 : 0 ≤ cw)
    (hsum : (c : ℚ) * cw + (c : ℚ) * g ≤ canvasW) :
    ∀ (images : List ProcessedImage) (s : List ℚ × List MasonryItem),
      (∀ img ∈ images,
        0 < img.originalWidth ∧ 0 < img.originalHeight) →
      s.1.length = c → (∀ v ∈ s.1, 0 ≤ v) →
      (∀ it ∈ s.2, itemInBounds canvasW canvasH it) →
      ∀ it ∈ (images.foldl (masonryStep canvasH cw g) s).2,
        itemInBounds canvasW canvasH it := by
  intro images
  induction images with
  | nil => intro s _ _ _ hitems; exact hitems
  | cons img rest ih =>
      intro s himgs hl hpos hitems
      simp only [List.foldl_cons]
      obtain ⟨hl2, hpos2, hitems2⟩ :=
        c7_step canvasW canvasH g cw c hc hg hcw0 hsum s img
          (himgs img (List.mem_cons_self img rest)).1
          (himgs img (List.mem_cons_self img rest)).2 hl hpos hitems
      exact ih _ (fun i hi => himgs i (List.mem_cons_of_mem _ hi))
        hl2 hpos2 hitems2

/-- **C7 amended.** Under the claimed preconditions strengthened by
`gap·(columns+1) ≤ canvasWidth` (equivalently, a nonnegative column width —
without it the counterexample above escapes the canvas), every placed item has its bounding box within `[0, canvasWidth] × [0, canvasHeight]`. -/
theorem c7_bounding_boxes (images : List ProcessedImage)
    (canvasW canvasH : ℚ) (c : ℕ) (g : ℚ) (hc : 1 ≤ c) (hg : 0 ≤ g)
    (hW : 0 < canvasW) (hH : 0 < canvasH)
    (himg : ∀ img ∈ images, 0 < img.originalWidth ∧ 0 < img.originalHeight)
    (hfit : g * ((c : ℚ) + 1) ≤ canvasW) :
    ∀ it ∈ calculateMasonryLayout images canvasW canvasH c g,
      itemInBounds canvasW canvasH it := by
  have hc0 : (0 : ℚ) < (c : ℚ) := by
    exact_mod_cast Nat.lt_of_lt_of_le Nat.zero_lt_one hc
  have hcne : ((c : ℚ)) ≠ 0 := ne_of_gt hc0
  have hcw0 : 0 ≤ (canvasW - g * ((c : ℚ) + 1)) / (c : ℚ) :=
    div_nonneg (by linarith) (le_of_lt hc0)
  have hmulcw : (c : ℚ) * ((canvasW - g * ((c : ℚ) + 1)) / (c : ℚ)) =
      canvasW - g * ((c : ℚ) + 1) := by
    rw [mul_div_assoc']
    exact mul_div_cancel_left₀ _ hcne
  have hexp : g * ((c : ℚ) + 1) = g * (c : ℚ) + g := by ring
  have hsum : (c : ℚ) * ((canvasW - g * ((c : ℚ) + 1)) / (c : ℚ)) +
      (c : ℚ) * g ≤ canvasW := by
    rw [hmulcw]
    rw [hexp]
    have : (c : ℚ) * g = g * (c : ℚ) := mul_comm _ _
    linarith
  intro it hit
  unfold calculateMasonryLayout at hit
  dsimp only at hit
  exact c7_fold canvasW canvasH g _ c hc hg hcw0 hsum images
    (List.replicate c g, []) himg (by simp [List.length_replicate])
    (by
      intro v hv
      rcases List.mem_replicate.mp hv with ⟨_, rfl⟩
      exact hg)
    (by intro it2 hit2; cases hit2) it hit

/-- C7 amended, instantiated on the first item of the §8 scenario. -/
theorem c7_bounding_boxes_witness :
    itemInBounds 1000 1000 ⟨⟨0, 100, 100⟩, 10, 10, 320, 320⟩ := by
  apply c7_bounding_boxes [⟨0, 100, 100⟩] 1000 1000 3 10 (by norm_num)
    (by norm_num) (by norm_num) (by norm_num) (by norm_num) (by norm_num)
  norm_num [calculateMasonryLayout, masonryStep, shortestColumnIndex, idxOf,
    listMin, List.replicate]

theorem getD_set_self {l : List ℚ} {n : ℕ} (h : n < l.length) {a : ℚ} :
    (l.set n a).getD n 0 = a := by
  have hlen : n < (l.set n a).length := by
    simpa [List.length_set] using h
  rw [List.getD_eq_getElem _ 0 hlen]
  exact List.getElem_set_self hlen

theorem getD_set_ne {l : List ℚ} {n m : ℕ} (h : n ≠ m) {a : ℚ} :
    (l.set n a).getD m 0 = l.getD m 0 := by
  by_cases hm : m < l.length
  · have hm2 : m < (l.set n a).length := by
      simpa [List.length_set] using hm
    rw [List.getD_eq_getElem _ 0 hm2, List.getD_eq_getElem _ 0 hm]
    exact List.getElem_set_ne h hm2
  · have hm2 : l.length ≤ m := le_of_not_lt hm
    rw [List.getD_eq_default _ 0 hm2,
      List.getD_eq_default _ 0 (by simpa [List.length_set] using hm2)]

/-- **C8 counterexample.** With gap 0 (allowed by the preconditions) the two
placed 100×100 images share the column at x = 0 and their closed vertical
ranges [0, 100] and [100, 200] intersect at 100: the ranges are not
disjoint. -/
theorem c8_counterexample :
    calculateMasonryLayout [⟨0, 100, 100⟩, ⟨1, 100, 100⟩] 100 1000 1 0 =
      [{ image := ⟨0, 100, 100⟩, x := 0, y := 0, width := 100,
         height := 100 },
       { image := ⟨1, 100, 100⟩, x := 0, y := 100, width := 100,
         height := 100 }] ∧
    ¬ yRangesDisjoint
        { image := ⟨0, 100, 100⟩, x := 0, y := 0, width := 100,
          height := 100 }
        { image := ⟨1, 100, 100⟩, x := 0, y := 100, width := 100,
          height := 100 } := by
  constructor
  · norm_num [calculateMasonryLayout, masonryStep, shortestColumnIndex,
      idxOf, listMin, List.replicate]
  · norm_num [yRangesDisjoint]

theorem foldl_heights_neg (canvasH g cw : ℚ) (hcw : cw < 0) :
    ∀ (images : List ProcessedImage) (s : List ℚ × List MasonryItem),
      (∀ img ∈ images,
        0 < img.originalWidth ∧ 0 < img.originalHeight) →
      (∀ it ∈ s.2, it.height < 0) →
      ∀ it ∈ (images.foldl (masonryStep canvasH cw g) s).2,
        it.height < 0 := by
  intro images
  induction images with
  | nil => intro s _ hinv; exact hinv
  | cons img rest ih =>
      intro s himgs hinv
      simp only [List.foldl_cons]
      apply ih _ (fun i hi => himgs i (List.mem_cons_of_mem _ hi))
      intro it hit
      simp only [masonryStep] at hit
      by_cases hcond :
          s.1.getD (shortestColumnIndex s.1) 0 +
            cw / (img.originalWidth / img.originalHeight) ≤ canvasH - g
      · rw [if_pos hcond] at hit
        rcases List.mem_append.mp hit with hold | hnew
        · exact hinv it hold
        · rcases List.mem_singleton.mp hnew with rfl
          exact div_neg_of_neg_of_pos hcw
            (div_pos (himgs img (List.mem_cons_self img rest)).1
              (himgs img (List.mem_cons_self img rest)).2)
      · rw [if_neg hcond] at hit
        exact hinv it hit

theorem foldl_pairwise_posWidth (canvasH g cw : ℚ) (c : ℕ) (hc : 1 ≤ c)
    (hg : 0 ≤ g) (hcw0 : 0 ≤ cw) (hcwg : 0 < cw + g) :
    ∀ (images : List ProcessedImage) (s : List ℚ × List MasonryItem),
      (∀ img ∈ images,
        0 < img.originalWidth ∧ 0 < img.originalHeight) →
      s.1.length = c →
      (∀ it ∈ s.2, ∃ k, k < c ∧ it.x = g + (k : ℚ) * (cw + g) ∧
        it.y + it.height + g ≤ s.1.getD k 0) →
      s.2.Pairwise (fun a b => a.x = b.x → noStrictOverlap a b) →
      ((images.foldl (masonryStep canvasH cw g) s).2).Pairwise
        (fun a b => a.x = b.x → noStrictOverlap a b) := by
  intro images
  induction images with
  | nil => intro s _ _ _ hpw; exact hpw
  | cons img rest ih =>
      intro s himgs hl hcol hpw
      simp only [List.foldl_cons]
      by_cases hcond :
          s.1.getD (shortestColumnIndex s.1) 0 +
            cw / (img.originalWidth / img.originalHeight) ≤ canvasH - g
      · rw [(c2_step_rejects_or_places canvasH cw g s.1 s.2 img).2 hcond]
        have hne : s.1 ≠ [] := by
          apply List.ne_nil_of_length_pos
          omega
        have hidx : shortestColumnIndex s.1 < s.1.length :=
          shortestColumnIndex_lt_length hne
        have hih0 : 0 ≤ cw / (img.originalWidth / img.originalHeight) :=
          div_nonneg hcw0
            (le_of_lt (div_pos (himgs img (List.mem_cons_self img rest)).1
              (himgs img (List.mem_cons_self img rest)).2))
        apply ih _ (fun i hi => himgs i (List.mem_cons_of_mem _ hi))
        · dsimp only
          simpa [List.length_set] using hl
        · dsimp only
          intro it hit
          rcases List.mem_append.mp hit with hold | hnew
          · obtain ⟨k, hk, hxk, hbound⟩ := hcol it hold
            refine ⟨k, hk, hxk, ?_⟩
            by_cases hkidx : k = shortestColumnIndex s.1
            · subst hkidx
              rw [getD_set_self hidx]
              linarith
            · rw [getD_set_ne (fun hcontra => hkidx hcontra.symm)]
              exact hbound
          · rcases List.mem_singleton.mp hnew with rfl
            refine ⟨shortestColumnIndex s.1, by omega, rfl, ?_⟩
            dsimp only
            exact le_of_eq (getD_set_self hidx).symm
        · dsimp only
          rw [List.pairwise_append]
          refine ⟨hpw, List.pairwise_singleton _ _, ?_⟩
          intro a ha b hb hx
          rcases List.mem_singleton.mp hb with rfl
          obtain ⟨k, hk, hxk, hbound⟩ := hcol a ha
          rw [hxk] at hx
          dsimp only at hx
          have hkq : (k : ℚ) = ((shortestColumnIndex s.1 : ℕ) : ℚ) :=
            mul_right_cancel₀ (ne_of_gt hcwg) (by linarith)
          have hkeq : k = shortestColumnIndex s.1 := Nat.cast_inj.mp hkq
          subst hkeq
          left
          dsimp only
          linarith
      · rw [(c2_step_rejects_or_places canvasH cw g s.1 s.2 img).1
          (lt_of_not_le hcond)]
        exact ih _ (fun i hi => himgs i (List.mem_cons_of_mem _ hi))
          hl hcol hpw

theorem getD_replicate_zero (c n : ℕ) :
    (List.replicate c (0 : ℚ)).getD n 0 = 0 := by
  by_cases hlt : n < (List.replicate c (0 : ℚ)).length
  · rw [List.getD_eq_getElem _ 0 hlt, List.getElem_replicate]
  · rw [List.getD_eq_default _ 0 (le_of_not_lt hlt)]

theorem foldl_degenerate (canvasH : ℚ) (c : ℕ) :
    ∀ (images : List ProcessedImage) (s : List ℚ × List MasonryItem),
      s.1 = List.replicate c 0 →
      (∀ it ∈ s.2, it.y = 0 ∧ it.height = 0) →
      ∀ it ∈ (images.foldl (masonryStep canvasH 0 0) s).2,
        it.y = 0 ∧ it.height = 0 := by
  intro images
  induction images with
  | nil => intro s _ hinv; exact hinv
  | cons img rest ih =>
      intro s hs hinv
      simp only [List.foldl_cons]
      have hy : s.1.getD (shortestColumnIndex s.1) 0 = 0 := by
        rw [hs]
        exact getD_replicate_zero c _
      have hih : (0 : ℚ) / (img.originalWidth / img.originalHeight) = 0 :=
        zero_div _
      by_cases hcond :
          s.1.getD (shortestColumnIndex s.1) 0 +
            (0 : ℚ) / (img.originalWidth / img.originalHeight) ≤ canvasH - 0
      · rw [(c2_step_rejects_or_places canvasH 0 0 s.1 s.2 img).2 hcond]
        apply ih
        · dsimp only
          have hval : s.1.getD (shortestColumnIndex s.1) 0 +
              (0 : ℚ) / (img.originalWidth / img.originalHeight) + 0 = 0 := by
            rw [hy, hih]
            norm_num
          rw [hval, hs]
          exact List.set_replicate_self
        · dsimp only
          intro it hit
          rcases List.mem_append.mp hit with hold | hnew
          · exact hinv it hold
          · rcases List.mem_singleton.mp hnew with rfl
            exact ⟨hy, hih⟩
      · rw [(c2_step_rejects_or_places canvasH 0 0 s.1 s.2 img).1
          (lt_of_not_le hcond)]
        exact ih _ hs hinv

/-- **C8 amended.** Under the claimed preconditions, any two placed items
sharing the same x-offset have vertical ranges that overlap at most at one
boundary point: the `y + height` of one item is at most the `y` of the other (so for gap > 0
the closed ranges are fully disjoint, while at gap = 0 — the counterexample —
they may share exactly an endpoint). -/
theorem c8_no_vertical_overlap (images : List ProcessedImage)
    (canvasW canvasH : ℚ) (c : ℕ) (g : ℚ) (hc : 1 ≤ c) (hg : 0 ≤ g)
    (hW : 0 < canvasW) (hH : 0 < canvasH)
    (himg : ∀ img ∈ images,
      0 < img.originalWidth ∧ 0 < img.originalHeight) :
    columnsOverlapFree
      (calculateMasonryLayout images canvasW canvasH c g) := by
  unfold columnsOverlapFree calculateMasonryLayout
  dsimp only
  rcases lt_or_le ((canvasW - g * ((c : ℚ) + 1)) / (c : ℚ)) 0 with hneg | hcw0
  · apply List.pairwise_of_forall_mem_list
    intro a ha b hb _
    have ha2 := foldl_heights_neg canvasH g _ hneg images
      (List.replicate c g, []) himg (by intro it hit; cases hit) a ha
    have hb2 := foldl_heights_neg canvasH g _ hneg images
      (List.replicate c g, []) himg (by intro it hit; cases hit) b hb
    unfold noStrictOverlap
    by_contra hcon
    push_neg at hcon
    obtain ⟨h1, h2⟩ := hcon
    linarith
  · rcases lt_or_le 0 ((canvasW - g * ((c : ℚ) + 1)) / (c : ℚ) + g) with
      hcwg | hdeg
    · exact foldl_pairwise_posWidth canvasH g _ c hc hg hcw0 hcwg images
        (List.replicate c g, []) himg (by simp [List.length_replicate])
        (by intro it hit; cases hit) List.Pairwise.nil
    · have hg0 : g = 0 := le_antisymm (by linarith) hg
      have hcwz : (canvasW - g * ((c : ℚ) + 1)) / (c : ℚ) = 0 := by
        linarith
      rw [hg0, hcwz] at *
      apply List.pairwise_of_forall_mem_list
      intro a ha b hb _
      have ha2 := foldl_degenerate canvasH c images
        (List.replicate c 0, []) rfl (by intro it hit; cases hit) a ha
      have hb2 := foldl_degenerate canvasH c images
        (List.replicate c 0, []) rfl (by intro it hit; cases hit) b hb
      left
      rw [ha2.1, ha2.2, hb2.1]
      norm_num

/-- C8 amended, instantiated on the §8 scenario: the five placed items are
pairwise overlap-free within columns. -/
theorem c8_no_vertical_overlap_witness :
    columnsOverlapFree
      (calculateMasonryLayout
        [⟨0, 100, 100⟩, ⟨1, 100, 100⟩, ⟨2, 100, 100⟩, ⟨3, 100, 100⟩,
         ⟨4, 100, 100⟩] 1000 1000 3 10) :=
  c8_no_vertical_overlap
    [⟨0, 100, 100⟩, ⟨1, 100, 100⟩, ⟨2, 100, 100⟩, ⟨3, 100, 100⟩,
     ⟨4, 100, 100⟩] 1000 1000 3 10 (by norm_num) (by norm_num)
    (by norm_num) (by norm_num) (by norm_num)

end BannerMasonry
